import Mathlib

/-!
Verification of the process-query compiler and evaluator (src/app/query.rs).

The embedding below translates the Rust source shallowly:

* Rust `String` tokens become Lean `String`; all string manipulation is done
  on the underlying `List Char` so that every definition is executable and
  kernel-reducible.
* Rust `f64` values are modelled by `F64`: an exact rational for finite
  values plus the `inf`/`-inf`/`NaN` forms that `str::parse::<f64>()` also
  accepts.  Every finite value appearing in the verified claims (unit
  multipliers up to `10^12`, parsed literals such as `1`, `50`, `500` and
  their products) is exactly representable in `f64`, so the exact model
  agrees with the source on those values.  `f64::EPSILON` is `2 ^ (-52)`
  exactly.
* The external `regex` crate is modelled only on the path the source uses
  when `is_searching_with_regex` is false: the compiled pattern is
  `^? (?i)? escape(body) $?`, i.e. an (optionally anchored, optionally
  case-insensitive) *literal* match, represented by the
  `StringQuery.Regex` constructor and given semantics by `regexIsMatch`.
* The in-place mutation done by `process_regexes` is modelled as a pure
  tree-rebuilding pass; in literal mode `regex::Regex::new` cannot fail,
  so the modelled pass is total.
* `VecDeque<String>` with `pop_front`/`front` becomes a `List String`
  consumed from the head; the parser functions return the unconsumed
  remainder explicitly (with a length bound used for termination).
-/

/-- Token queue: the `VecDeque<String>` of the source, consumed from the head. -/
abbrev Toks := List String

/-- Models Rust `str::to_lowercase` (ASCII case mapping suffices for the
query keywords handled by the source). -/
def strLower (s : String) : String := String.mk (s.data.map Char.toLower)

/-- Models `DELIMITER_LIST: [char; 5] = ['=', '>', '<', '(', ')']`. -/
def DELIMITER_CHARS : List Char := ['=', '>', '<', '(', ')']

/-- Models `AND_LIST.contains(&queue_top.to_lowercase().as_str())` for
`AND_LIST = ["and", "&&"]`. -/
def isAndKw (s : String) : Bool := strLower s == "and" || strLower s == "&&"

/-- Models `OR_LIST.contains(&queue_top.to_lowercase().as_str())` for
`OR_LIST = ["or", "||"]`. -/
def isOrKw (s : String) : Bool := strLower s == "or" || strLower s == "||"

/-- Models Rust `str::trim_matches('\"')`: strips every leading and trailing
double-quote character. -/
def trimQuotes (s : String) : String :=
  String.mk (((s.data.dropWhile (· == '"')).reverse.dropWhile (· == '"')).reverse)

/-- The keyword tokens recognised by `PrefixType::from_str` (lower-cased). -/
def KEYWORDS : List String := ["cpu", "mem", "r", "w", "read", "write", "pid"]

/-- Models the Rust enum `PrefixType` (the never-constructed
`__Nonexhaustive` variant is omitted: `from_str` never produces it and the
parser never builds it). -/
inductive PfxType where
  | Pid
  | Cpu
  | Mem
  | Rps
  | Wps
  | TRead
  | TWrite
  | Name
deriving DecidableEq

/-- Models `PrefixType::from_str`.  The source returns `Result` but every
branch is `Ok`, so the model is total. -/
def PfxType.fromStr (s : String) : PfxType :=
  match strLower s with
  | "cpu" => .Cpu
  | "mem" => .Mem
  | "r" => .Rps
  | "w" => .Wps
  | "read" => .TRead
  | "write" => .TWrite
  | "pid" => .Pid
  | _ => .Name

/-- Models the Rust enum `QueryComparison`. -/
inductive QueryComparison where
  | Equal
  | Less
  | Greater
  | LessOrEqual
  | GreaterOrEqual
deriving DecidableEq

/-- Models an `f64` value as produced by `str::parse::<f64>()`: an exact
rational for the finite decimal literals, plus the special values
`inf`/`-inf`/`NaN` that Rust's float grammar also accepts.  Rounding a
finite literal to binary64 is not modelled: every finite value the verified
claims touch is exactly representable. -/
inductive F64 where
  | finite (q : ℚ)
  | inf
  | negInf
  | nan
deriving DecidableEq

/-- Multiplication by a positive literal multiplier, as `f64` multiplication
behaves on the unit-suffix constants: finite values multiply (exactly, for
the products the claims touch), and `±inf`/`NaN` are preserved (in IEEE
arithmetic `±inf * m = ±inf` and `NaN * m = NaN` for positive finite `m`). -/
def F64.scale (x : F64) (m : ℚ) : F64 :=
  match x with
  | .finite q => .finite (q * m)
  | .inf => .inf
  | .negInf => .negInf
  | .nan => .nan

/-- Models the Rust struct `NumericalQuery`; the `f64` threshold keeps the
exact value resolved during parsing. -/
structure NumericalQuery where
  condition : QueryComparison
  value : F64
deriving DecidableEq

/-- Models the Rust enum `StringQuery`.  `Value` is the raw pattern before
matcher compilation.  `Regex` models the compiled
`regex::Regex::new(^? (?i)? escape(body) $?)` built by `process_regexes`
when `is_searching_with_regex` is false: it records the two flags and the
raw (escaped-literal) body. -/
inductive StringQuery where
  | Value (s : String)
  | Regex (wholeWord : Bool) (ignoreCase : Bool) (body : String)
deriving DecidableEq

mutual

/-- Models the Rust struct `And { lhs: Or, rhs: Option<Box<Or>> }`.
`OptQOr` is `Option QOr` specialised into the mutual block so that the
tree-walking functions are structurally recursive. -/
inductive QAnd where
  | mk (lhs : QOr) (rhs : OptQOr)

/-- Specialisation of `Option QOr` (constructor-for-constructor) for mutual
structural recursion. -/
inductive OptQOr where
  | none
  | some (r : QOr)

/-- Models the Rust struct `Or { lhs: Prefix, rhs: Option<Box<Prefix>> }`. -/
inductive QOr where
  | mk (lhs : Pfx) (rhs : OptPfx)

/-- Specialisation of `Option Pfx` for mutual structural recursion. -/
inductive OptPfx where
  | none
  | some (r : Pfx)

/-- Models the Rust struct `Prefix` with its three optional fields
`and`, `regex_prefix`, `compare_prefix` (the latter two are not recursive,
so they keep plain `Option`). -/
inductive Pfx where
  | mk (and : OptQAnd) (regexPfx : Option (PfxType × StringQuery))
      (comparePfx : Option (PfxType × NumericalQuery))

/-- Specialisation of `Option QAnd` for mutual structural recursion. -/
inductive OptQAnd where
  | none
  | some (a : QAnd)

end

/-- Models the Rust struct `Query { query: And }`. -/
structure Query where
  query : QAnd

/-- Models the fields of `ConvertedProcessData` read by the evaluator
(`check`): a textual name, an integer pid, and six `f64` metrics. -/
structure ConvertedProcessData where
  name : String
  pid : Int
  cpu_usage : ℚ
  mem_usage : ℚ
  rps_f64 : ℚ
  wps_f64 : ℚ
  tr_f64 : ℚ
  tw_f64 : ℚ

/-- Models `f64::EPSILON = 2^(-52)` exactly. -/
def f64Epsilon : ℚ := 1 / 2 ^ 52

/-- Models the inner `matches_condition` function of `Prefix::check` for a
finite record metric `lhs` (the collaborator contract supplies plain
metrics) and a stored `f64` threshold `rhs`.  For a finite threshold this is
the source expression verbatim; for `±inf` and `NaN` the branches follow
IEEE comparison semantics: `|lhs - ±inf|` is `inf`, so the epsilon test is
false, the orderings against `±inf` are strict, and every comparison
involving `NaN` is false. -/
def matchesCondition (condition : QueryComparison) (lhs : ℚ) (rhs : F64) : Bool :=
  match rhs with
  | .finite r =>
    match condition with
    | .Equal => decide (|lhs - r| < f64Epsilon)
    | .Less => decide (lhs < r)
    | .Greater => decide (lhs > r)
    | .LessOrEqual => decide (lhs ≤ r)
    | .GreaterOrEqual => decide (lhs ≥ r)
  | .inf =>
    match condition with
    | .Equal => false
    | .Less => true
    | .Greater => false
    | .LessOrEqual => true
    | .GreaterOrEqual => false
  | .negInf =>
    match condition with
    | .Equal => false
    | .Less => false
    | .Greater => true
    | .LessOrEqual => false
    | .GreaterOrEqual => true
  | .nan => false

/-- Decides whether `pat` occurs contiguously inside `hay` (the semantics of
`Regex::is_match` for an unanchored escaped-literal pattern). -/
def containsSub (hay pat : List Char) : Bool :=
  match hay with
  | [] => pat.isEmpty
  | _ :: t => pat.isPrefixOf hay || containsSub t pat

/-- Semantics of `Regex::is_match` for the patterns built by
`process_regexes` in literal (non-regex) mode: `^` and `$` anchors are
present iff `wholeWord`, the `(?i)` marker folds case iff `ignoreCase`, and
the escaped body matches itself literally. -/
def regexIsMatch (wholeWord ignoreCase : Bool) (body target : String) : Bool :=
  let fold := fun s => if ignoreCase then strLower s else s
  if wholeWord then fold target == fold body
  else containsSub (fold target).data (fold body).data

/-- Models `u32`/digit-run accumulation for decimal literals. -/
def digitsToNat (ds : List Char) : ℕ :=
  ds.foldl (fun a c => 10 * a + (c.toNat - 48)) 0

/-- Integer power of ten over `ℚ`, written so that it kernel-reduces. -/
def pow10 (e : Int) : ℚ :=
  if 0 ≤ e then ((10 ^ e.toNat : ℕ) : ℚ) else 1 / ((10 ^ (-e).toNat : ℕ) : ℚ)

/-- Parses an optional exponent suffix (`e`/`E`, optional sign, digits) and
requires the remainder to be empty, as Rust's `f64::from_str` does. -/
def parseExpPart (base : ℚ) (cs : List Char) : Option ℚ :=
  match cs with
  | [] => some base
  | e :: r =>
    if e == 'e' || e == 'E' then
      let sr : Int × List Char :=
        match r with
        | '+' :: t => (1, t)
        | '-' :: t => (-1, t)
        | t => (1, t)
      let ds := sr.2.takeWhile (·.isDigit)
      let r3 := sr.2.dropWhile (·.isDigit)
      if ds.isEmpty || !r3.isEmpty then none
      else some (base * pow10 (sr.1 * (digitsToNat ds : Int)))
    else none

/-- Parses an unsigned decimal mantissa with optional fraction and exponent. -/
def parseF64Core (cs : List Char) : Option ℚ :=
  let ip := cs.takeWhile (·.isDigit)
  let r1 := cs.dropWhile (·.isDigit)
  match r1 with
  | '.' :: r2 =>
    let fp := r2.takeWhile (·.isDigit)
    let r3 := r2.dropWhile (·.isDigit)
    if ip.isEmpty && fp.isEmpty then none
    else
      parseExpPart ((digitsToNat ip : ℚ) + (digitsToNat fp : ℚ) / pow10 fp.length) r3
  | _ =>
    if ip.isEmpty then none
    else parseExpPart (digitsToNat ip : ℚ) r1

/-- Models Rust `str::parse::<f64>()`: an optional sign followed by one of
the case-insensitive special forms `inf`, `infinity`, `NaN`, or a decimal
literal (digits, optional fraction, optional exponent).  Finite values are
kept exact. -/
def parseF64 (s : String) : Option F64 :=
  match s.data with
  | [] => none
  | cs =>
    let neg : Bool :=
      match cs with
      | '-' :: _ => true
      | _ => false
    let r : List Char :=
      match cs with
      | '+' :: t => t
      | '-' :: t => t
      | t => t
    let low := r.map Char.toLower
    if low = ['i', 'n', 'f'] ∨ low = ['i', 'n', 'f', 'i', 'n', 'i', 't', 'y'] then
      some (if neg then F64.negInf else F64.inf)
    else if low = ['n', 'a', 'n'] then some F64.nan
    else (parseF64Core r).map (fun q => F64.finite (if neg then -q else q))

/-- Models the unit-suffix peek of `process_prefix`: only for
`Rps | Wps | TRead | TWrite`, if the next token is exactly one of
`TB TiB GB GiB MB MiB KB KiB B`, multiply the value by the corresponding
byte multiplier and pop the token; otherwise leave the queue untouched.
The returned remainder carries its length bound for termination proofs. -/
def applyUnit (pt : PfxType) (v : F64) (q : Toks) : F64 × {r : Toks // r.length ≤ q.length} :=
  match pt with
  | .Rps | .Wps | .TRead | .TWrite =>
    match q with
    | [] => (v, ⟨[], by simp⟩)
    | u :: q1 =>
      if u == "TB" then (v.scale 1000000000000, ⟨q1, by simp⟩)
      else if u == "TiB" then (v.scale 1099511627776, ⟨q1, by simp⟩)
      else if u == "GB" then (v.scale 1000000000, ⟨q1, by simp⟩)
      else if u == "GiB" then (v.scale 1073741824, ⟨q1, by simp⟩)
      else if u == "MB" then (v.scale 1000000, ⟨q1, by simp⟩)
      else if u == "MiB" then (v.scale 1048576, ⟨q1, by simp⟩)
      else if u == "KB" then (v.scale 1000, ⟨q1, by simp⟩)
      else if u == "KiB" then (v.scale 1024, ⟨q1, by simp⟩)
      else if u == "B" then (v, ⟨q1, by simp⟩)
      else (v, ⟨u :: q1, by simp⟩)
  | _ => (v, ⟨q, by simp⟩)

/-- Error message of `QueryError("Failed to parse comparator.")`. -/
def failedComparatorMsg : String := "Failed to parse comparator."

/-- Error message of `QueryError("Missing closing parentheses")`. -/
def missingClosingMsg : String := "Missing closing parentheses"

/-- Error message of `QueryError("Missing opening parentheses")`. -/
def missingOpeningMsg : String := "Missing opening parentheses"

/-- Models the numeric (`_ =>`) arm of the match in `process_prefix`: pop
the operator token, resolve the comparison and the value, peek for a unit
suffix, and fail with the comparator error whenever the operator or value is
missing or the value does not parse. -/
def processNumeric (pt : PfxType) (q1 : Toks) :
    Except String (Pfx × {r : Toks // r.length ≤ q1.length}) :=
  match q1 with
  | [] => .error failedComparatorMsg
  | content :: q2 =>
    if content == "=" then
      match q2 with
      | [] => .error failedComparatorMsg
      | v :: q3 =>
        match parseF64 v with
        | none => .error failedComparatorMsg
        | some x =>
          match applyUnit pt x q3 with
          | (x2, ⟨r, hr⟩) =>
            .ok (Pfx.mk OptQAnd.none none (some (pt, NumericalQuery.mk QueryComparison.Equal x2)),
              ⟨r, by simp only [List.length_cons] at *; omega⟩)
    else if content == ">" || content == "<" then
      match q2 with
      | [] => .error failedComparatorMsg
      | n :: q3 =>
        if n == "=" then
          match q3 with
          | [] => .error failedComparatorMsg
          | v :: q4 =>
            match parseF64 v with
            | none => .error failedComparatorMsg
            | some x =>
              match applyUnit pt x q4 with
              | (x2, ⟨r, hr⟩) =>
                .ok (Pfx.mk OptQAnd.none none (some (pt, NumericalQuery.mk
                    (if content == ">" then QueryComparison.GreaterOrEqual
                     else QueryComparison.LessOrEqual) x2)),
                  ⟨r, by simp only [List.length_cons] at *; omega⟩)
        else
          match parseF64 n with
          | none => .error failedComparatorMsg
          | some x =>
            match applyUnit pt x q3 with
            | (x2, ⟨r, hr⟩) =>
              .ok (Pfx.mk OptQAnd.none none (some (pt, NumericalQuery.mk
                  (if content == ">" then QueryComparison.Greater
                   else QueryComparison.Less) x2)),
                ⟨r, by simp only [List.length_cons] at *; omega⟩)
    else .error failedComparatorMsg

/-- The `pid` arm of `process_prefix`: `pid = <text>` consumes the `=` and
the following token; any other following token is taken directly as the
match text; a missing token falls through to the comparator error. -/
def pidPfx (q1 : Toks) : Except String (Pfx × {r : Toks // r.length < q1.length + 1}) :=
  match q1 with
  | [] => .error failedComparatorMsg
  | content :: q2 =>
    if content == "=" then
      match q2 with
      | [] => .error failedComparatorMsg
      | nxt :: q3 =>
        .ok (Pfx.mk OptQAnd.none (some (PfxType.Pid, StringQuery.Value nxt)) none,
          ⟨q3, by simp only [List.length_cons]; omega⟩)
    else
      .ok (Pfx.mk OptQAnd.none (some (PfxType.Pid, StringQuery.Value content)) none,
        ⟨q2, by simp only [List.length_cons]; omega⟩)

/-- The numeric arm with its remainder bound restated for `process_prefix`. -/
def numericPfxW (pt : PfxType) (q1 : Toks) :
    Except String (Pfx × {r : Toks // r.length < q1.length + 1}) :=
  match processNumeric pt q1 with
  | .error e => .error e
  | .ok (p, ⟨r, hr⟩) => .ok (p, ⟨r, by omega⟩)

mutual

/-- Models `process_and`: parse an `Or`, then loop over `and` keywords. -/
def processAnd (q : Toks) : Except String (QAnd × {r : Toks // r.length < q.length}) :=
  match processOr q with
  | .error e => .error e
  | .ok (lhs, ⟨q1, h1⟩) =>
    match processAndLoop lhs q1 with
    | .error e => .error e
    | .ok (a, ⟨q2, h2⟩) => .ok (a, ⟨q2, by omega⟩)
termination_by 5 * q.length + 2
decreasing_by
  all_goals (try simp only [List.length_cons] at *)
  all_goals omega

/-- Models the `while` loop of `process_and`: stop unless the front token is
an `and` keyword. -/
def processAndLoop (lhs : QOr) (q : Toks) :
    Except String (QAnd × {r : Toks // r.length ≤ q.length}) :=
  match q with
  | [] => .ok (QAnd.mk lhs OptQOr.none, ⟨[], by simp⟩)
  | t :: q1 =>
    if isAndKw t then andLoopStep lhs q1
    else .ok (QAnd.mk lhs OptQOr.none, ⟨t :: q1, by simp⟩)
termination_by 5 * q.length + 3
decreasing_by
  all_goals (try simp only [List.length_cons] at *)
  all_goals omega

/-- Models one iteration of the `process_and` loop after the `and` keyword
was popped: parse the right operand; if yet another `and` keyword follows,
fold the accumulated operands into a `Group`-wrapped sub-expression that
becomes the new left operand and continue the loop. -/
def andLoopStep (lhs : QOr) (q1 : Toks) :
    Except String (QAnd × {r : Toks // r.length ≤ q1.length + 1}) :=
  match processOr q1 with
  | .error e => .error e
  | .ok (rhsv, ⟨[], _⟩) => .ok (QAnd.mk lhs (OptQOr.some rhsv), ⟨[], by simp⟩)
  | .ok (rhsv, ⟨t2 :: q3, h2⟩) =>
    if isAndKw t2 then
      match processAndLoop
          (QOr.mk (Pfx.mk (OptQAnd.some (QAnd.mk lhs (OptQOr.some rhsv))) none none) OptPfx.none)
          (t2 :: q3) with
      | .error e => .error e
      | .ok (a, ⟨q4, h4⟩) =>
        .ok (a, ⟨q4, by simp only [List.length_cons] at *; omega⟩)
    else
      .ok (QAnd.mk lhs (OptQOr.some rhsv),
        ⟨t2 :: q3, by simp only [List.length_cons] at *; omega⟩)
termination_by 5 * q1.length + 4
decreasing_by
  all_goals (try simp only [List.length_cons] at *)
  all_goals omega

/-- Models `process_or`: parse a `Prefix`, then loop over `or` keywords. -/
def processOr (q : Toks) : Except String (QOr × {r : Toks // r.length < q.length}) :=
  match processPfx q with
  | .error e => .error e
  | .ok (lhs, ⟨q1, h1⟩) =>
    match processOrLoop lhs q1 with
    | .error e => .error e
    | .ok (o, ⟨q2, h2⟩) => .ok (o, ⟨q2, by omega⟩)
termination_by 5 * q.length + 1
decreasing_by
  all_goals (try simp only [List.length_cons] at *)
  all_goals omega

/-- Models the `while` loop of `process_or`: stop unless the front token is
an `or` keyword. -/
def processOrLoop (lhs : Pfx) (q : Toks) :
    Except String (QOr × {r : Toks // r.length ≤ q.length}) :=
  match q with
  | [] => .ok (QOr.mk lhs OptPfx.none, ⟨[], by simp⟩)
  | t :: q1 =>
    if isOrKw t then orLoopStep lhs q1
    else .ok (QOr.mk lhs OptPfx.none, ⟨t :: q1, by simp⟩)
termination_by 5 * q.length + 3
decreasing_by
  all_goals (try simp only [List.length_cons] at *)
  all_goals omega

/-- Models one iteration of the `process_or` loop after the `or` keyword was
popped, folding chains exactly as `andLoopStep` does but at the `Prefix`
level. -/
def orLoopStep (lhs : Pfx) (q1 : Toks) :
    Except String (QOr × {r : Toks // r.length ≤ q1.length + 1}) :=
  match processPfx q1 with
  | .error e => .error e
  | .ok (rhsv, ⟨[], _⟩) => .ok (QOr.mk lhs (OptPfx.some rhsv), ⟨[], by simp⟩)
  | .ok (rhsv, ⟨t2 :: q3, h2⟩) =>
    if isOrKw t2 then
      match processOrLoop
          (Pfx.mk (OptQAnd.some (QAnd.mk (QOr.mk lhs (OptPfx.some rhsv)) OptQOr.none)) none none)
          (t2 :: q3) with
      | .error e => .error e
      | .ok (o, ⟨q4, h4⟩) =>
        .ok (o, ⟨q4, by simp only [List.length_cons] at *; omega⟩)
    else
      .ok (QOr.mk lhs (OptPfx.some rhsv),
        ⟨t2 :: q3, by simp only [List.length_cons] at *; omega⟩)
termination_by 5 * q1.length + 4
decreasing_by
  all_goals (try simp only [List.length_cons] at *)
  all_goals omega

/-- Models `process_prefix`: pop one token; `(` opens a parenthesised group,
`)` is the missing-opening-parenthesis error, an unrecognised token becomes
a `Name` criterion for that same (quote-trimmed) token, `pid` and the
numeric keywords consume further tokens, and an empty queue is the
comparator error. -/
def processPfx (q : Toks) : Except String (Pfx × {r : Toks // r.length < q.length}) :=
  match q with
  | [] => .error failedComparatorMsg
  | t :: q1 =>
    if t == "(" then parenPfx q1
    else if t == ")" then .error missingOpeningMsg
    else
      match PfxType.fromStr t with
      | .Name =>
        .ok (Pfx.mk OptQAnd.none (some (PfxType.Name, StringQuery.Value (trimQuotes t))) none,
          ⟨q1, by simp⟩)
      | .Pid => pidPfx q1
      | pt => numericPfxW pt q1
termination_by 5 * q.length
decreasing_by
  all_goals (try simp only [List.length_cons] at *)
  all_goals omega

/-- Models the `(` arm of `process_prefix`: parse the bracketed `And` and
demand an immediately following `)` token. -/
def parenPfx (q1 : Toks) : Except String (Pfx × {r : Toks // r.length < q1.length + 1}) :=
  match processAnd q1 with
  | .error e => .error e
  | .ok (_, ⟨[], _⟩) => .error missingClosingMsg
  | .ok (a, ⟨c :: q3, h2⟩) =>
    if strLower c == ")" then
      .ok (Pfx.mk (OptQAnd.some a) none none,
        ⟨q3, by simp only [List.length_cons] at *; omega⟩)
    else .error missingClosingMsg
termination_by 5 * q1.length + 4
decreasing_by
  all_goals (try simp only [List.length_cons] at *)
  all_goals omega

end

/-- Forgets the termination bound on a parser result. -/
def stripB {α : Type} {P : Toks → Prop}
    (x : Except String (α × {r : Toks // P r})) : Except String (α × Toks) :=
  match x with
  | .error e => .error e
  | .ok (a, r) => .ok (a, r.val)

/-- Wrapper for `process_prefix` returning the unconsumed remainder, bound erased. -/
def processPfxR (q : Toks) : Except String (Pfx × Toks) := stripB (processPfx q)

/-- Wrapper for `process_or` returning the unconsumed remainder, bound erased. -/
def processOrR (q : Toks) : Except String (QOr × Toks) := stripB (processOr q)

/-- Wrapper for `process_and` returning the unconsumed remainder, bound erased. -/
def processAndR (q : Toks) : Except String (QAnd × Toks) := stripB (processAnd q)

/-- The `process_or` loop with the unconsumed remainder, bound erased. -/
def processOrLoopR (lhs : Pfx) (q : Toks) : Except String (QOr × Toks) :=
  stripB (processOrLoop lhs q)

/-- The `process_and` loop with the unconsumed remainder, bound erased. -/
def processAndLoopR (lhs : QOr) (q : Toks) : Except String (QAnd × Toks) :=
  stripB (processAndLoop lhs q)

/-- The numeric arm with the unconsumed remainder, bound erased. -/
def processNumericR (pt : PfxType) (q : Toks) : Except String (Pfx × Toks) :=
  stripB (processNumeric pt q)

/-- Models `process_string_to_filter`, keeping the leftover queue visible:
the source mutates the shared `VecDeque`, whose unconsumed remainder is
simply never examined again by `parse_query`. -/
def processStringToFilter (q : Toks) : Except String (Query × Toks) :=
  match processAnd q with
  | .error e => .error e
  | .ok (a, r) => .ok (Query.mk a, r.val)

/-- The parse stage of `parse_query`: builds the `Query` and silently drops
whatever tokens the parser did not consume. -/
def parseQueryTokens (q : Toks) : Except String Query :=
  (processStringToFilter q).map (fun x => x.1)

/-- Models the per-chunk `match_indices` splitting of `parse_query`: inside
one whitespace-free chunk, each delimiter character becomes its own token
and maximal delimiter-free runs are kept intact.  `cur` is the reversed
pending run. -/
def splitChunk : List Char → List Char → List String
  | [], cur => if cur.isEmpty then [] else [String.mk cur.reverse]
  | c :: cs, cur =>
    if DELIMITER_CHARS.contains c then
      (if cur.isEmpty then [] else [String.mk cur.reverse]) ++
        String.mk [c] :: splitChunk cs []
    else splitChunk cs (c :: cur)

/-- Models `str::split_whitespace`: maximal runs of non-whitespace
characters, in order.  `cur` is the reversed pending run. -/
def splitWs : List Char → List Char → List (List Char)
  | [], cur => if cur.isEmpty then [] else [cur.reverse]
  | c :: cs, cur =>
    if c.isWhitespace then
      (if cur.isEmpty then [] else [cur.reverse]) ++ splitWs cs []
    else splitWs cs (c :: cur)

/-- Models the tokenizer of `parse_query`: split on whitespace, then split
out the delimiter characters of `DELIMITER_LIST` as standalone tokens. -/
def tokenizeQuery (s : String) : Toks :=
  List.flatten ((splitWs s.data []).map (fun chunk => splitChunk chunk []))

/-- Compiles one `regex_prefix` field: a raw `Pid`/`Name` criterion becomes
the matcher `^? (?i)? escape(body) $?`; anything else is untouched. -/
def compileRp (rp : Option (PfxType × StringQuery)) (ww ic : Bool) :
    Option (PfxType × StringQuery) :=
  match rp with
  | some (PfxType.Pid, StringQuery.Value s) =>
    some (PfxType.Pid, StringQuery.Regex ww ic s)
  | some (PfxType.Name, StringQuery.Value s) =>
    some (PfxType.Name, StringQuery.Regex ww ic s)
  | other => other

mutual

/-- Models `And::process_regexes` (the in-place mutation is rebuilt purely). -/
def QAnd.processRegexes (a : QAnd) (ww ic : Bool) : QAnd :=
  match a with
  | .mk lhs (.some r) => .mk (lhs.processRegexes ww ic) (.some (r.processRegexes ww ic))
  | .mk lhs .none => .mk (lhs.processRegexes ww ic) .none

/-- Models `Or::process_regexes`. -/
def QOr.processRegexes (o : QOr) (ww ic : Bool) : QOr :=
  match o with
  | .mk lhs (.some r) => .mk (lhs.processRegexes ww ic) (.some (r.processRegexes ww ic))
  | .mk lhs .none => .mk (lhs.processRegexes ww ic) .none

/-- Models `Prefix::process_regexes` in literal (non-regex) search mode: a
`Group` recurses (leaving the other fields untouched, as the source returns
early), otherwise the `regex_prefix` field is compiled by `compileRp`.  In
this mode `regex::Regex::new` cannot fail, so the pass is total. -/
def Pfx.processRegexes (p : Pfx) (ww ic : Bool) : Pfx :=
  match p with
  | .mk (.some an) rp cp => .mk (.some (an.processRegexes ww ic)) rp cp
  | .mk .none rp cp => .mk .none (compileRp rp ww ic) cp

end

/-- Models `Query::process_regexes`. -/
def Query.processRegexes (q : Query) (ww ic : Bool) : Query :=
  Query.mk (q.query.processRegexes ww ic)

/-- Models `ProcessQuery::parse_query` in literal (non-regex) search mode:
tokenize, parse, then compile the string criteria with the two flags
`is_searching_whole_word` and `is_ignoring_case`. -/
def parse_query (s : String) (ww ic : Bool) : Except String Query :=
  (parseQueryTokens (tokenizeQuery s)).map (fun q => q.processRegexes ww ic)

mutual

/-- Models `And::check`. -/
def QAnd.check (a : QAnd) (p : ConvertedProcessData) : Bool :=
  match a with
  | .mk lhs (.some rhs) => lhs.check p && rhs.check p
  | .mk lhs .none => lhs.check p

/-- Models `Or::check`. -/
def QOr.check (o : QOr) (p : ConvertedProcessData) : Bool :=
  match o with
  | .mk lhs (.some rhs) => lhs.check p || rhs.check p
  | .mk lhs .none => lhs.check p

/-- Models `Prefix::check`: a group delegates, a compiled `Name`/`Pid`
matcher is tested against the name or the decimal pid, a numeric criterion
compares the selected field against the stored threshold, and every other
combination evaluates to `true` (fail-open). -/
def Pfx.check (x : Pfx) (p : ConvertedProcessData) : Bool :=
  match x with
  | .mk (.some an) _ _ => an.check p
  | .mk .none (some (pt, sq)) _ =>
    match sq with
    | StringQuery.Regex ww ic body =>
      match pt with
      | .Name => regexIsMatch ww ic body p.name
      | .Pid => regexIsMatch ww ic body (toString p.pid)
      | _ => true
    | StringQuery.Value _ => true
  | .mk .none none (some (pt, nq)) =>
    match pt with
    | .Cpu => matchesCondition nq.condition p.cpu_usage nq.value
    | .Mem => matchesCondition nq.condition p.mem_usage nq.value
    | .Rps => matchesCondition nq.condition p.rps_f64 nq.value
    | .Wps => matchesCondition nq.condition p.wps_f64 nq.value
    | .TRead => matchesCondition nq.condition p.tr_f64 nq.value
    | .TWrite => matchesCondition nq.condition p.tw_f64 nq.value
    | _ => true
  | .mk .none none none => true

end

/-- Models `Query::check`. -/
def Query.check (q : Query) (p : ConvertedProcessData) : Bool :=
  q.query.check p

/-- The `Prefix` node built for an unrecognised (default-to-`Name`) token. -/
def namePfx (t : String) : Pfx :=
  Pfx.mk OptQAnd.none (some (PfxType.Name, StringQuery.Value (trimQuotes t))) none

/-- The numeric-capable prefix types. -/
def numericPfx (pt : PfxType) : Prop :=
  pt = .Cpu ∨ pt = .Mem ∨ pt = .Rps ∨ pt = .Wps ∨ pt = .TRead ∨ pt = .TWrite

/-- Token shapes after a numeric-capable prefix for which the source's
comparator resolution cannot succeed: missing operator, an operator token
that is none of `=`, `>`, `<`, a missing value token, or a value token that
does not parse as a number. -/
def badComparatorToks (rest : Toks) : Prop :=
  rest = [] ∨
  (∃ c rest2, rest = c :: rest2 ∧ c ≠ "=" ∧ c ≠ ">" ∧ c ≠ "<") ∨
  rest = ["="] ∨
  (∃ v rest2, rest = "=" :: v :: rest2 ∧ parseF64 v = none) ∨
  (∃ c, (c = ">" ∨ c = "<") ∧
    (rest = [c] ∨ rest = [c, "="] ∨
     (∃ v rest2, rest = c :: "=" :: v :: rest2 ∧ parseF64 v = none) ∨
     (∃ v rest2, rest = c :: v :: rest2 ∧ v ≠ "=" ∧ parseF64 v = none)))

/-- Parse a token list and compile the string criteria: the token-level
pipeline of `parse_query`. -/
def parseCompileToks (toks : Toks) (ww ic : Bool) : Except String Query :=
  (parseQueryTokens toks).map (fun q => q.processRegexes ww ic)


/-- The `or`-loop iteration with the bound erased. -/
def orLoopStepR (lhs : Pfx) (q1 : Toks) : Except String (QOr × Toks) :=
  stripB (orLoopStep lhs q1)

/-- The `and`-loop iteration with the bound erased. -/
def andLoopStepR (lhs : QOr) (q1 : Toks) : Except String (QAnd × Toks) :=
  stripB (andLoopStep lhs q1)

/-- A token list `la` is an atom criterion parsing to `pa` when
`process_prefix` consumes exactly `la` (independently of what follows) and
produces `pa`.  Single unrecognised (`Name`) tokens and numeric criteria
without a trailing unit token all satisfy this. -/
def atomCriterion (la : Toks) (pa : Pfx) : Prop :=
  ∀ rest, processPfxR (la ++ rest) = .ok (pa, rest)

/-- A concrete process record used by witnesses: name `a`, pid 1, all
metrics zero. -/
def recA : ConvertedProcessData :=
  { name := "a", pid := 1, cpu_usage := 0, mem_usage := 0,
    rps_f64 := 0, wps_f64 := 0, tr_f64 := 0, tw_f64 := 0 }

/-- A concrete process record named `Chrome`. -/
def recChrome : ConvertedProcessData :=
  { name := "Chrome", pid := 1, cpu_usage := 0, mem_usage := 0,
    rps_f64 := 0, wps_f64 := 0, tr_f64 := 0, tw_f64 := 0 }

/-- A concrete process record named `chromedriver`. -/
def recChromedriver : ConvertedProcessData :=
  { name := "chromedriver", pid := 1, cpu_usage := 0, mem_usage := 0,
    rps_f64 := 0, wps_f64 := 0, tr_f64 := 0, tw_f64 := 0 }

/-- A concrete process record named `x` with pid 123. -/
def recPid123 : ConvertedProcessData :=
  { name := "x", pid := 123, cpu_usage := 0, mem_usage := 0,
    rps_f64 := 0, wps_f64 := 0, tr_f64 := 0, tw_f64 := 0 }

/-! ## Unfolding equations for the parser wrappers -/

theorem processPfxR_nil : processPfxR [] = .error failedComparatorMsg := by
  unfold processPfxR; rw [processPfx.eq_def]; rfl

theorem processPfxR_close (rest : Toks) :
    processPfxR (")" :: rest) = .error missingOpeningMsg := by
  unfold processPfxR; rw [processPfx.eq_def]; simp [stripB]

theorem fromStr_paren_facts {t : String} (h : PfxType.fromStr t ≠ .Name) :
    t ≠ "(" ∧ t ≠ ")" := by
  constructor <;> rintro rfl <;> exact h (by decide)

theorem processPfxR_name {t : String} (rest : Toks)
    (h1 : PfxType.fromStr t = .Name) (h2 : t ≠ "(") (h3 : t ≠ ")") :
    processPfxR (t :: rest) = .ok (namePfx t, rest) := by
  unfold processPfxR; rw [processPfx.eq_def]
  simp [stripB, h1, h2, h3, namePfx]

theorem processPfxR_open (rest : Toks) :
    processPfxR ("(" :: rest) =
      (match processAndR rest with
       | .error e => .error e
       | .ok (_, []) => .error missingClosingMsg
       | .ok (a, c :: q3) =>
         if strLower c == ")" then .ok (Pfx.mk (OptQAnd.some a) none none, q3)
         else .error missingClosingMsg) := by
  unfold processPfxR; rw [processPfx.eq_def]
  simp only [beq_self_eq_true, if_pos]
  rw [parenPfx.eq_def]
  unfold processAndR
  cases h : processAnd rest with
  | error e => simp [stripB]
  | ok pr =>
    obtain ⟨a, r, hr⟩ := pr
    cases r with
    | nil => simp [stripB]
    | cons c q3 =>
      by_cases hc : strLower c == ")" <;> simp [stripB, hc]

theorem processPfxR_pid {t : String} (rest : Toks) (h : PfxType.fromStr t = .Pid) :
    processPfxR (t :: rest) = stripB (pidPfx rest) := by
  obtain ⟨h2, h3⟩ := fromStr_paren_facts (t := t) (by rw [h]; intro hx; cases hx)
  unfold processPfxR; rw [processPfx.eq_def]
  simp [stripB, h, h2, h3]

theorem stripB_numericPfxW (pt : PfxType) (q : Toks) :
    stripB (numericPfxW pt q) = processNumericR pt q := by
  unfold numericPfxW processNumericR
  cases h : processNumeric pt q with
  | error e => simp [stripB]
  | ok pr => obtain ⟨p, r, hr⟩ := pr; simp [stripB]

theorem processPfxR_num {t : String} {pt : PfxType} (rest : Toks)
    (h : PfxType.fromStr t = pt) (h1 : pt ≠ .Name) (h2 : pt ≠ .Pid) :
    processPfxR (t :: rest) = processNumericR pt rest := by
  obtain ⟨hp2, hp3⟩ := fromStr_paren_facts (t := t) (by rw [h]; exact h1)
  unfold processPfxR; rw [processPfx.eq_def]
  rw [← stripB_numericPfxW]
  simp only [stripB, hp2, hp3, h]
  cases pt
  all_goals first
    | exact absurd rfl h1
    | exact absurd rfl h2
    | simp [stripB, hp2, hp3]

theorem processOrLoopR_nil (lhs : Pfx) :
    processOrLoopR lhs [] = .ok (QOr.mk lhs OptPfx.none, []) := by
  unfold processOrLoopR; rw [processOrLoop.eq_def]; rfl

theorem processOrLoopR_stop (lhs : Pfx) {t : String} (rest : Toks)
    (h : isOrKw t = false) :
    processOrLoopR lhs (t :: rest) = .ok (QOr.mk lhs OptPfx.none, t :: rest) := by
  unfold processOrLoopR; rw [processOrLoop.eq_def]; simp [stripB, h]

theorem processOrLoopR_kw (lhs : Pfx) {t : String} (rest : Toks)
    (h : isOrKw t = true) :
    processOrLoopR lhs (t :: rest) = orLoopStepR lhs rest := by
  unfold processOrLoopR orLoopStepR; rw [processOrLoop.eq_def]; simp [h]

theorem orLoopStepR_def (lhs : Pfx) (q1 : Toks) :
    orLoopStepR lhs q1 =
      (match processPfxR q1 with
       | .error e => .error e
       | .ok (rhsv, []) => .ok (QOr.mk lhs (OptPfx.some rhsv), [])
       | .ok (rhsv, t2 :: q3) =>
         if isOrKw t2 then
           processOrLoopR
             (Pfx.mk (OptQAnd.some (QAnd.mk (QOr.mk lhs (OptPfx.some rhsv)) OptQOr.none))
               none none) (t2 :: q3)
         else .ok (QOr.mk lhs (OptPfx.some rhsv), t2 :: q3)) := by
  unfold orLoopStepR processPfxR processOrLoopR; rw [orLoopStep.eq_def]
  cases h : processPfx q1 with
  | error e => simp [stripB]
  | ok pr =>
    obtain ⟨rhsv, r, hr⟩ := pr
    cases r with
    | nil => simp [stripB]
    | cons t2 q3 =>
      by_cases h2 : isOrKw t2 <;> simp only [h2, if_true, if_false, stripB]
      · cases hl : processOrLoop
          (Pfx.mk (OptQAnd.some (QAnd.mk (QOr.mk lhs (OptPfx.some rhsv)) OptQOr.none))
            none none) (t2 :: q3) with
        | error e => simp [stripB]
        | ok pr2 => obtain ⟨o, r2, hr2⟩ := pr2; simp [stripB]
      · simp [stripB]

theorem processAndLoopR_nil (lhs : QOr) :
    processAndLoopR lhs [] = .ok (QAnd.mk lhs OptQOr.none, []) := by
  unfold processAndLoopR; rw [processAndLoop.eq_def]; rfl

theorem processAndLoopR_stop (lhs : QOr) {t : String} (rest : Toks)
    (h : isAndKw t = false) :
    processAndLoopR lhs (t :: rest) = .ok (QAnd.mk lhs OptQOr.none, t :: rest) := by
  unfold processAndLoopR; rw [processAndLoop.eq_def]; simp [stripB, h]

theorem processAndLoopR_kw (lhs : QOr) {t : String} (rest : Toks)
    (h : isAndKw t = true) :
    processAndLoopR lhs (t :: rest) = andLoopStepR lhs rest := by
  unfold processAndLoopR andLoopStepR; rw [processAndLoop.eq_def]; simp [h]

theorem andLoopStepR_def (lhs : QOr) (q1 : Toks) :
    andLoopStepR lhs q1 =
      (match processOrR q1 with
       | .error e => .error e
       | .ok (rhsv, []) => .ok (QAnd.mk lhs (OptQOr.some rhsv), [])
       | .ok (rhsv, t2 :: q3) =>
         if isAndKw t2 then
           processAndLoopR
             (QOr.mk (Pfx.mk (OptQAnd.some (QAnd.mk lhs (OptQOr.some rhsv))) none none)
               OptPfx.none) (t2 :: q3)
         else .ok (QAnd.mk lhs (OptQOr.some rhsv), t2 :: q3)) := by
  unfold andLoopStepR processOrR processAndLoopR; rw [andLoopStep.eq_def]
  cases h : processOr q1 with
  | error e => simp [stripB]
  | ok pr =>
    obtain ⟨rhsv, r, hr⟩ := pr
    cases r with
    | nil => simp [stripB]
    | cons t2 q3 =>
      by_cases h2 : isAndKw t2 <;> simp only [h2, if_true, if_false, stripB]
      · cases hl : processAndLoop
          (QOr.mk (Pfx.mk (OptQAnd.some (QAnd.mk lhs (OptQOr.some rhsv))) none none)
            OptPfx.none) (t2 :: q3) with
        | error e => simp [stripB]
        | ok pr2 => obtain ⟨o, r2, hr2⟩ := pr2; simp [stripB]
      · simp [stripB]

theorem processOrR_def (q : Toks) :
    processOrR q =
      (match processPfxR q with
       | .error e => .error e
       | .ok (lhs, q1) => processOrLoopR lhs q1) := by
  unfold processOrR processPfxR processOrLoopR; rw [processOr.eq_def]
  cases h : processPfx q with
  | error e => simp [stripB]
  | ok pr =>
    obtain ⟨lhs, r, hr⟩ := pr
    simp only [stripB]
    cases hl : processOrLoop lhs r with
    | error e => simp [stripB]
    | ok pr2 => obtain ⟨o, r2, hr2⟩ := pr2; simp [stripB]

theorem processAndR_def (q : Toks) :
    processAndR q =
      (match processOrR q with
       | .error e => .error e
       | .ok (lhs, q1) => processAndLoopR lhs q1) := by
  unfold processAndR processOrR processAndLoopR; rw [processAnd.eq_def]
  cases h : processOr q with
  | error e => simp [stripB]
  | ok pr =>
    obtain ⟨lhs, r, hr⟩ := pr
    simp only [stripB]
    cases hl : processAndLoop lhs r with
    | error e => simp [stripB]
    | ok pr2 => obtain ⟨a, r2, hr2⟩ := pr2; simp [stripB]

theorem processStringToFilter_def (q : Toks) :
    processStringToFilter q =
      (match processAndR q with
       | .error e => .error e
       | .ok (a, r) => .ok (Query.mk a, r)) := by
  unfold processStringToFilter processAndR
  cases h : processAnd q with
  | error e => simp [stripB]
  | ok pr => obtain ⟨a, r, hr⟩ := pr; simp [stripB]


/-! ## Chain folding: general parse shapes for three-operand chains -/

theorem chainAnd_parse {la lb lc : Toks} {pa pb pc : Pfx}
    (hA : atomCriterion la pa) (hB : atomCriterion lb pb) (hC : atomCriterion lc pc) :
    processAndR (la ++ ("and" :: (lb ++ ("and" :: lc)))) =
      .ok (QAnd.mk
        (QOr.mk (Pfx.mk (OptQAnd.some (QAnd.mk (QOr.mk pa OptPfx.none)
          (OptQOr.some (QOr.mk pb OptPfx.none)))) none none) OptPfx.none)
        (OptQOr.some (QOr.mk pc OptPfx.none)), []) := by
  have hA' := hA ("and" :: (lb ++ ("and" :: lc)))
  have hB' := hB ("and" :: lc)
  have hC' := hC []
  rw [List.append_nil] at hC'
  have k1 : isOrKw "and" = false := by decide
  have k2 : isAndKw "and" = true := by decide
  simp only [processAndR_def, processOrR_def, hA', hB', hC', processOrLoopR_stop,
    processOrLoopR_nil, processAndLoopR_kw, andLoopStepR_def, processAndLoopR_nil,
    k1, k2, if_true]

theorem parenAnd_parse {la lb lc : Toks} {pa pb pc : Pfx}
    (hA : atomCriterion la pa) (hB : atomCriterion lb pb) (hC : atomCriterion lc pc) :
    processAndR ("(" :: (la ++ ("and" :: (lb ++ (")" :: ("and" :: lc)))))) =
      .ok (QAnd.mk
        (QOr.mk (Pfx.mk (OptQAnd.some (QAnd.mk (QOr.mk pa OptPfx.none)
          (OptQOr.some (QOr.mk pb OptPfx.none)))) none none) OptPfx.none)
        (OptQOr.some (QOr.mk pc OptPfx.none)), []) := by
  have hA' := hA ("and" :: (lb ++ (")" :: ("and" :: lc))))
  have hB' := hB (")" :: ("and" :: lc))
  have hC' := hC []
  rw [List.append_nil] at hC'
  have k1 : isOrKw "and" = false := by decide
  have k2 : isAndKw "and" = true := by decide
  have k3 : isOrKw ")" = false := by decide
  have k4 : isAndKw ")" = false := by decide
  have k5 : (strLower ")" == ")") = true := by decide
  simp only [processAndR_def, processOrR_def, processPfxR_open, hA', hB', hC',
    processOrLoopR_stop, processOrLoopR_nil, processAndLoopR_kw, processAndLoopR_stop,
    andLoopStepR_def, processAndLoopR_nil, k1, k2, k3, k4, k5, if_true, if_false,
    Bool.false_eq_true]

theorem chainOr_parse {la lb lc : Toks} {pa pb pc : Pfx}
    (hA : atomCriterion la pa) (hB : atomCriterion lb pb) (hC : atomCriterion lc pc) :
    processOrR (la ++ ("or" :: (lb ++ ("or" :: lc)))) =
      .ok (QOr.mk
        (Pfx.mk (OptQAnd.some (QAnd.mk (QOr.mk pa (OptPfx.some pb)) OptQOr.none))
          none none)
        (OptPfx.some pc), []) := by
  have hA' := hA ("or" :: (lb ++ ("or" :: lc)))
  have hB' := hB ("or" :: lc)
  have hC' := hC []
  rw [List.append_nil] at hC'
  have k1 : isOrKw "or" = true := by decide
  simp only [processOrR_def, hA', hB', hC', processOrLoopR_kw, orLoopStepR_def,
    processOrLoopR_nil, k1, if_true]

theorem parenOr_parse {la lb lc : Toks} {pa pb pc : Pfx}
    (hA : atomCriterion la pa) (hB : atomCriterion lb pb) (hC : atomCriterion lc pc) :
    processOrR ("(" :: (la ++ ("or" :: (lb ++ (")" :: ("or" :: lc)))))) =
      .ok (QOr.mk
        (Pfx.mk (OptQAnd.some (QAnd.mk (QOr.mk pa (OptPfx.some pb)) OptQOr.none))
          none none)
        (OptPfx.some pc), []) := by
  have hA' := hA ("or" :: (lb ++ (")" :: ("or" :: lc))))
  have hB' := hB (")" :: ("or" :: lc))
  have hC' := hC []
  rw [List.append_nil] at hC'
  have k1 : isOrKw "or" = true := by decide
  have k3 : isOrKw ")" = false := by decide
  have k4 : isAndKw ")" = false := by decide
  have k5 : (strLower ")" == ")") = true := by decide
  simp only [processOrR_def, processAndR_def, processPfxR_open, hA', hB', hC',
    processOrLoopR_kw, processOrLoopR_stop, orLoopStepR_def, processOrLoopR_nil,
    processAndLoopR_stop, k1, k3, k4, k5, if_true, if_false, Bool.false_eq_true]

/-! ## Claims -/

/-- C5: for every And node and record, `check` returns `check lhs && check rhs`
when the right operand is present and `check lhs` when it is absent; for every
Or node, the same with `||`: an absent right side means "no further operand",
not vacuous truth. -/
theorem C5_and_or_check_semantics :
    (∀ (lhs r : QOr) (p : ConvertedProcessData),
      (QAnd.mk lhs (OptQOr.some r)).check p = (lhs.check p && r.check p)) ∧
    (∀ (lhs : QOr) (p : ConvertedProcessData),
      (QAnd.mk lhs OptQOr.none).check p = lhs.check p) ∧
    (∀ (lhs r : Pfx) (p : ConvertedProcessData),
      (QOr.mk lhs (OptPfx.some r)).check p = (lhs.check p || r.check p)) ∧
    (∀ (lhs : Pfx) (p : ConvertedProcessData),
      (QOr.mk lhs OptPfx.none).check p = lhs.check p) :=
  ⟨fun _ _ _ => rfl, fun _ _ => rfl, fun _ _ _ => rfl, fun _ _ => rfl⟩

/-- C4: a three-operand same-precedence chain parses by folding the first two
operands into a `Group` that becomes the new left operand:
`A and B and C` yields `And(lhs = Group(And(A, B)), rhs = C)`, and
`A or B or C` yields the analogous shape at the Or level. -/
theorem C4_chain_fold_shape {la lb lc : Toks} {pa pb pc : Pfx}
    (hA : atomCriterion la pa) (hB : atomCriterion lb pb) (hC : atomCriterion lc pc) :
    processAndR (la ++ ("and" :: (lb ++ ("and" :: lc)))) =
      .ok (QAnd.mk
        (QOr.mk (Pfx.mk (OptQAnd.some (QAnd.mk (QOr.mk pa OptPfx.none)
          (OptQOr.some (QOr.mk pb OptPfx.none)))) none none) OptPfx.none)
        (OptQOr.some (QOr.mk pc OptPfx.none)), []) ∧
    processOrR (la ++ ("or" :: (lb ++ ("or" :: lc)))) =
      .ok (QOr.mk
        (Pfx.mk (OptQAnd.some (QAnd.mk (QOr.mk pa (OptPfx.some pb)) OptQOr.none))
          none none)
        (OptPfx.some pc), []) :=
  ⟨chainAnd_parse hA hB hC, chainOr_parse hA hB hC⟩

theorem C4_witness :
    atomCriterion ["a"] (namePfx "a") ∧
    (processAndR (["a"] ++ ("and" :: (["b"] ++ ("and" :: ["c"])))) =
      .ok (QAnd.mk
        (QOr.mk (Pfx.mk (OptQAnd.some (QAnd.mk (QOr.mk (namePfx "a") OptPfx.none)
          (OptQOr.some (QOr.mk (namePfx "b") OptPfx.none)))) none none) OptPfx.none)
        (OptQOr.some (QOr.mk (namePfx "c") OptPfx.none)), []) ∧
    processOrR (["a"] ++ ("or" :: (["b"] ++ ("or" :: ["c"])))) =
      .ok (QOr.mk
        (Pfx.mk (OptQAnd.some (QAnd.mk (QOr.mk (namePfx "a") (OptPfx.some (namePfx "b")))
          OptQOr.none)) none none)
        (OptPfx.some (namePfx "c")), [])) :=
  ⟨fun rest => processPfxR_name rest (by decide) (by decide) (by decide),
   C4_chain_fold_shape
     (fun rest => processPfxR_name rest (by decide) (by decide) (by decide))
     (fun rest => processPfxR_name rest (by decide) (by decide) (by decide))
     (fun rest => processPfxR_name rest (by decide) (by decide) (by decide))⟩

/-- C7 counterexample: the token `)` does not case-insensitively equal any of
the keywords, yet prefix parsing on it fails (with the missing-opening-
parenthesis error) instead of classifying it as a `Name` criterion, so the
claim is false for parenthesis tokens. -/
theorem C7_counterexample :
    strLower ")" ∉ KEYWORDS ∧ processPfxR [")"] = .error missingOpeningMsg :=
  ⟨by decide, processPfxR_close []⟩

/-- C7 (amended): for every token other than `(` and `)` that does not
case-insensitively equal one of the keywords `cpu mem r w read write pid`,
prefix parsing never fails: the token is classified as `Name` and that same
token, with surrounding quote characters trimmed, becomes the search text,
with no additional token consumed. -/
theorem C7_default_name_fallback (t : String) (rest : Toks)
    (hK : strLower t ∉ KEYWORDS) (h2 : t ≠ "(") (h3 : t ≠ ")") :
    PfxType.fromStr t = .Name ∧
    processPfxR (t :: rest) =
      .ok (Pfx.mk OptQAnd.none
        (some (PfxType.Name, StringQuery.Value (trimQuotes t))) none, rest) := by
  have hn : PfxType.fromStr t = .Name := by
    unfold PfxType.fromStr
    split <;> simp_all [KEYWORDS]
  exact ⟨hn, processPfxR_name rest hn h2 h3⟩

theorem C7_witness :
    (strLower "foobar" ∉ KEYWORDS ∧ "foobar" ≠ "(" ∧ "foobar" ≠ ")") ∧
    (PfxType.fromStr "foobar" = .Name ∧
     processPfxR ["foobar"] =
      .ok (Pfx.mk OptQAnd.none
        (some (PfxType.Name, StringQuery.Value (trimQuotes "foobar"))) none, [])) :=
  ⟨⟨by decide, by decide, by decide⟩,
   C7_default_name_fallback "foobar" [] (by decide) (by decide) (by decide)⟩

/-- C9: a `)` token popped where a Prefix is expected fails with the
missing-opening-parenthesis error, and a `(` token whose nested And parse is
not immediately followed by a `)` token (including end of input) fails with
the missing-closing-parenthesis error; in both cases no query is produced. -/
theorem C9_paren_errors :
    (∀ rest : Toks, processPfxR (")" :: rest) = .error missingOpeningMsg) ∧
    (∀ (rest : Toks) (a : QAnd) (rest2 : Toks),
      processAndR rest = .ok (a, rest2) →
      (∀ c cs, rest2 = c :: cs → strLower c ≠ ")") →
      processPfxR ("(" :: rest) = .error missingClosingMsg) := by
  refine ⟨processPfxR_close, ?_⟩
  intro rest a rest2 h hne
  rw [processPfxR_open, h]
  cases rest2 with
  | nil => rfl
  | cons c cs =>
    have := hne c cs rfl
    simp [this]

theorem C9_witness :
    (processAndR ["x"] =
      .ok (QAnd.mk (QOr.mk (namePfx "x") OptPfx.none) OptQOr.none, [])) ∧
    processPfxR ["(", "x"] = .error missingClosingMsg := by
  have hand : processAndR ["x"] =
      .ok (QAnd.mk (QOr.mk (namePfx "x") OptPfx.none) OptQOr.none, []) := by
    have hx := processPfxR_name (t := "x") [] (by decide) (by decide) (by decide)
    simp only [processAndR_def, processOrR_def, hx, processOrLoopR_nil,
      processAndLoopR_nil]
  exact ⟨hand, C9_paren_errors.2 ["x"] _ [] hand (fun c cs h => nomatch h)⟩

/-- C3: for any three criteria (token lists that prefix parsing consumes
context-independently) the compiled query for `A and B and C` evaluates to
the same boolean as the compiled query for `(A and B) and C` on every record
and for every flag setting, and the same holds at the `or` level: the
chain-folding transformation never changes the boolean result. -/
theorem C3_chain_fold_check {la lb lc : Toks} {pa pb pc : Pfx}
    (hA : atomCriterion la pa) (hB : atomCriterion lb pb) (hC : atomCriterion lc pc)
    (ww ic : Bool) (p : ConvertedProcessData) :
    (∃ q1 q2,
      parseCompileToks (la ++ ("and" :: (lb ++ ("and" :: lc)))) ww ic = .ok q1 ∧
      parseCompileToks ("(" :: (la ++ ("and" :: (lb ++ (")" :: ("and" :: lc)))))) ww ic
        = .ok q2 ∧
      q1.check p = q2.check p) ∧
    (∃ q1 q2,
      parseCompileToks (la ++ ("or" :: (lb ++ ("or" :: lc)))) ww ic = .ok q1 ∧
      parseCompileToks ("(" :: (la ++ ("or" :: (lb ++ (")" :: ("or" :: lc)))))) ww ic
        = .ok q2 ∧
      q1.check p = q2.check p) := by
  constructor
  · have e1 : parseCompileToks (la ++ ("and" :: (lb ++ ("and" :: lc)))) ww ic =
        .ok ((Query.mk (QAnd.mk
          (QOr.mk (Pfx.mk (OptQAnd.some (QAnd.mk (QOr.mk pa OptPfx.none)
            (OptQOr.some (QOr.mk pb OptPfx.none)))) none none) OptPfx.none)
          (OptQOr.some (QOr.mk pc OptPfx.none)))).processRegexes ww ic) := by
      unfold parseCompileToks parseQueryTokens
      rw [processStringToFilter_def, chainAnd_parse hA hB hC]
      rfl
    have e2 : parseCompileToks ("(" :: (la ++ ("and" :: (lb ++ (")" :: ("and" :: lc))))))
        ww ic =
        .ok ((Query.mk (QAnd.mk
          (QOr.mk (Pfx.mk (OptQAnd.some (QAnd.mk (QOr.mk pa OptPfx.none)
            (OptQOr.some (QOr.mk pb OptPfx.none)))) none none) OptPfx.none)
          (OptQOr.some (QOr.mk pc OptPfx.none)))).processRegexes ww ic) := by
      unfold parseCompileToks parseQueryTokens
      rw [processStringToFilter_def, parenAnd_parse hA hB hC]
      rfl
    exact ⟨_, _, e1, e2, rfl⟩
  · have e1 : parseCompileToks (la ++ ("or" :: (lb ++ ("or" :: lc)))) ww ic =
        .ok ((Query.mk (QAnd.mk (QOr.mk
          (Pfx.mk (OptQAnd.some (QAnd.mk (QOr.mk pa (OptPfx.some pb)) OptQOr.none))
            none none)
          (OptPfx.some pc)) OptQOr.none)).processRegexes ww ic) := by
      unfold parseCompileToks parseQueryTokens
      rw [processStringToFilter_def]
      simp only [processAndR_def, chainOr_parse hA hB hC, processAndLoopR_nil]
      rfl
    have e2 : parseCompileToks ("(" :: (la ++ ("or" :: (lb ++ (")" :: ("or" :: lc))))))
        ww ic =
        .ok ((Query.mk (QAnd.mk (QOr.mk
          (Pfx.mk (OptQAnd.some (QAnd.mk (QOr.mk pa (OptPfx.some pb)) OptQOr.none))
            none none)
          (OptPfx.some pc)) OptQOr.none)).processRegexes ww ic) := by
      unfold parseCompileToks parseQueryTokens
      rw [processStringToFilter_def]
      simp only [processAndR_def, parenOr_parse hA hB hC, processAndLoopR_nil]
      rfl
    exact ⟨_, _, e1, e2, rfl⟩

theorem C3_witness :
    atomCriterion ["a"] (namePfx "a") ∧
    (∃ q1 q2,
      parseCompileToks (["a"] ++ ("and" :: (["b"] ++ ("and" :: ["c"])))) false false
        = .ok q1 ∧
      parseCompileToks ("(" :: (["a"] ++ ("and" :: (["b"] ++ (")" :: ("and" :: ["c"]))))))
        false false = .ok q2 ∧
      q1.check recA =
      q2.check recA) :=
  ⟨fun rest => processPfxR_name rest (by decide) (by decide) (by decide),
   (C3_chain_fold_check
     (fun rest => processPfxR_name rest (by decide) (by decide) (by decide))
     (fun rest => processPfxR_name rest (by decide) (by decide) (by decide))
     (fun rest => processPfxR_name rest (by decide) (by decide) (by decide))
     false false recA).1⟩

/-- C8: for every token classified as a numeric-capable prefix, a missing
operator token, a missing value token, or a value token that does not parse
as a number fails with the comparator error, and the same error is produced
for the empty token stream. -/
theorem C8_comparator_errors :
    (∀ (t : String) (pt : PfxType) (rest : Toks),
      PfxType.fromStr t = pt → numericPfx pt → badComparatorToks rest →
      processPfxR (t :: rest) = .error failedComparatorMsg) ∧
    processPfxR [] = .error failedComparatorMsg ∧
    parseQueryTokens [] = .error failedComparatorMsg := by
  refine ⟨?_, processPfxR_nil, ?_⟩
  · intro t pt rest ht hnum hbad
    have hn1 : pt ≠ PfxType.Name := by
      rcases hnum with h | h | h | h | h | h <;> subst h <;> intro hx <;> cases hx
    have hn2 : pt ≠ PfxType.Pid := by
      rcases hnum with h | h | h | h | h | h <;> subst h <;> intro hx <;> cases hx
    rw [processPfxR_num rest ht hn1 hn2]
    rcases hbad with rfl | ⟨c, rest2, rfl, h1, h2, h3⟩ | rfl | ⟨v, rest2, rfl, hv⟩ |
      ⟨c, hc, hcase⟩
    · rfl
    · simp [processNumericR, processNumeric, stripB, h1, h2, h3]
    · rfl
    · simp [processNumericR, processNumeric, stripB, hv]
    · rcases hcase with rfl | rfl | ⟨v, rest2, rfl, hv⟩ | ⟨v, rest2, rfl, hv1, hv2⟩ <;>
        rcases hc with rfl | rfl
      · rfl
      · rfl
      · rfl
      · rfl
      · simp [processNumericR, processNumeric, stripB, hv]
      · simp [processNumericR, processNumeric, stripB, hv]
      · simp [processNumericR, processNumeric, stripB, hv1, hv2]
      · simp [processNumericR, processNumeric, stripB, hv1, hv2]
  · unfold parseQueryTokens
    rw [processStringToFilter_def]
    simp only [processAndR_def, processOrR_def, processPfxR_nil]
    rfl

theorem C8_witness :
    (PfxType.fromStr "cpu" = PfxType.Cpu ∧ numericPfx PfxType.Cpu ∧
      badComparatorToks []) ∧
    processPfxR ["cpu"] = .error failedComparatorMsg :=
  ⟨⟨by decide, Or.inl rfl, Or.inl rfl⟩,
   C8_comparator_errors.1 "cpu" PfxType.Cpu [] (by decide) (Or.inl rfl) (Or.inl rfl)⟩

/-- C2 counterexample: `pid>` does not produce a parse error; the `pid` arm
takes the `>` token itself as the match text, so `parse_query` succeeds. -/
theorem C2_counterexample :
    parse_query "pid>" false false =
      .ok (Query.mk (QAnd.mk (QOr.mk (Pfx.mk OptQAnd.none
        (some (PfxType.Pid, StringQuery.Regex false false ">")) none)
        OptPfx.none) OptQOr.none)) := by
  have t1 : tokenizeQuery "pid>" = ["pid", ">"] := by decide
  have hpid : ∀ rest, processPfxR ("pid" :: rest) = stripB (pidPfx rest) :=
    fun rest => processPfxR_pid rest (by decide)
  have hp : stripB (pidPfx [">"]) =
      .ok (Pfx.mk OptQAnd.none (some (PfxType.Pid, StringQuery.Value ">")) none, []) := rfl
  unfold parse_query parseQueryTokens
  rw [t1, processStringToFilter_def]
  simp only [processAndR_def, processOrR_def, hpid, hp, processOrLoopR_nil,
    processAndLoopR_nil]
  rfl

/-- C2 (amended): `pid>` parses successfully as a Pid string criterion whose
raw text is `>`; no panic occurs (the model is total) and the compiled query
does not match every record: it rejects the record with pid 123. -/
theorem C2_pid_gt_parses :
    parse_query "pid>" false false =
      .ok (Query.mk (QAnd.mk (QOr.mk (Pfx.mk OptQAnd.none
        (some (PfxType.Pid, StringQuery.Regex false false ">")) none)
        OptPfx.none) OptQOr.none)) ∧
    (Query.mk (QAnd.mk (QOr.mk (Pfx.mk OptQAnd.none
        (some (PfxType.Pid, StringQuery.Regex false false ">")) none)
        OptPfx.none) OptQOr.none)).check recPid123 = false := by
  refine ⟨?_, by decide⟩
  have t1 : tokenizeQuery "pid>" = ["pid", ">"] := by decide
  have hpid : ∀ rest, processPfxR ("pid" :: rest) = stripB (pidPfx rest) :=
    fun rest => processPfxR_pid rest (by decide)
  have hp : stripB (pidPfx [">"]) =
      .ok (Pfx.mk OptQAnd.none (some (PfxType.Pid, StringQuery.Value ">")) none, []) := rfl
  unfold parse_query parseQueryTokens
  rw [t1, processStringToFilter_def]
  simp only [processAndR_def, processOrR_def, hpid, hp, processOrLoopR_nil,
    processAndLoopR_nil]
  rfl

/-- C6: with whole-word and ignore-case set and regex mode off, the query
`chrome` compiles to the anchored case-insensitive literal matcher
(`^`, `(?i)`, escaped body, `$`), which matches the process name `Chrome`
but not `chromedriver`. -/
theorem C6_whole_word_ignore_case :
    parse_query "chrome" true true =
      .ok (Query.mk (QAnd.mk (QOr.mk (Pfx.mk OptQAnd.none
        (some (PfxType.Name, StringQuery.Regex true true "chrome")) none)
        OptPfx.none) OptQOr.none)) ∧
    (Query.mk (QAnd.mk (QOr.mk (Pfx.mk OptQAnd.none
        (some (PfxType.Name, StringQuery.Regex true true "chrome")) none)
        OptPfx.none) OptQOr.none)).check recChrome = true ∧
    (Query.mk (QAnd.mk (QOr.mk (Pfx.mk OptQAnd.none
        (some (PfxType.Name, StringQuery.Regex true true "chrome")) none)
        OptPfx.none) OptQOr.none)).check recChromedriver = false := by
  refine ⟨?_, by decide, by decide⟩
  have t1 : tokenizeQuery "chrome" = ["chrome"] := by decide
  have hname : ∀ rest, processPfxR ("chrome" :: rest) = .ok (namePfx "chrome", rest) :=
    fun rest => processPfxR_name rest (by decide) (by decide) (by decide)
  unfold parse_query parseQueryTokens
  rw [t1, processStringToFilter_def]
  simp only [processAndR_def, processOrR_def, hname, processOrLoopR_nil,
    processAndLoopR_nil]
  rfl

/-- C1 counterexample: the tokenizer does not split `1GiB` (no delimiter
character occurs inside it), so the value token of `read>1GiB` is `1GiB`,
which does not parse as a number: both `read>1GiB` and `write=500KB` fail
with the comparator error instead of producing unit-normalized thresholds. -/
theorem C1_counterexample :
    parse_query "read>1GiB" false false = .error failedComparatorMsg ∧
    parse_query "write=500KB" false false = .error failedComparatorMsg := by
  constructor
  · have t1 : tokenizeQuery "read>1GiB" = ["read", ">", "1GiB"] := by decide
    have hr : ∀ rest, processPfxR ("read" :: rest) = processNumericR PfxType.TRead rest :=
      fun rest => processPfxR_num rest (by decide) (by decide) (by decide)
    have hv : processNumericR PfxType.TRead [">", "1GiB"] = .error failedComparatorMsg := rfl
    unfold parse_query parseQueryTokens
    rw [t1, processStringToFilter_def]
    simp only [processAndR_def, processOrR_def, hr, hv]
    rfl
  · have t1 : tokenizeQuery "write=500KB" = ["write", "=", "500KB"] := by decide
    have hw : ∀ rest, processPfxR ("write" :: rest) = processNumericR PfxType.TWrite rest :=
      fun rest => processPfxR_num rest (by decide) (by decide) (by decide)
    have hv : processNumericR PfxType.TWrite ["=", "500KB"] = .error failedComparatorMsg := rfl
    unfold parse_query parseQueryTokens
    rw [t1, processStringToFilter_def]
    simp only [processAndR_def, processOrR_def, hw, hv]
    rfl

/-- C1 (amended): unit normalization applies when the unit suffix is a
separate whitespace-delimited token: `read>1 GiB` stores the threshold
`1073741824` and `write=500 KB` stores `500000`, the unit token is consumed
(the leftover queue is empty), and evaluation compares the record field
against the stored threshold directly, with no further scaling. -/
theorem C1_unit_normalization :
    processStringToFilter (tokenizeQuery "read>1 GiB") =
      .ok (Query.mk (QAnd.mk (QOr.mk (Pfx.mk OptQAnd.none none
        (some (PfxType.TRead, ⟨QueryComparison.Greater, F64.finite 1073741824⟩)))
        OptPfx.none) OptQOr.none), []) ∧
    processStringToFilter (tokenizeQuery "write=500 KB") =
      .ok (Query.mk (QAnd.mk (QOr.mk (Pfx.mk OptQAnd.none none
        (some (PfxType.TWrite, ⟨QueryComparison.Equal, F64.finite 500000⟩)))
        OptPfx.none) OptQOr.none), []) ∧
    (∀ ww ic, parse_query "read>1 GiB" ww ic =
      .ok (Query.mk (QAnd.mk (QOr.mk (Pfx.mk OptQAnd.none none
        (some (PfxType.TRead, ⟨QueryComparison.Greater, F64.finite 1073741824⟩)))
        OptPfx.none) OptQOr.none))) ∧
    (∀ ww ic, parse_query "write=500 KB" ww ic =
      .ok (Query.mk (QAnd.mk (QOr.mk (Pfx.mk OptQAnd.none none
        (some (PfxType.TWrite, ⟨QueryComparison.Equal, F64.finite 500000⟩)))
        OptPfx.none) OptQOr.none))) ∧
    (∀ p : ConvertedProcessData,
      (Query.mk (QAnd.mk (QOr.mk (Pfx.mk OptQAnd.none none
        (some (PfxType.TRead, ⟨QueryComparison.Greater, F64.finite 1073741824⟩)))
        OptPfx.none) OptQOr.none)).check p = decide (p.tr_f64 > (1073741824 : ℚ))) ∧
    (∀ p : ConvertedProcessData,
      (Query.mk (QAnd.mk (QOr.mk (Pfx.mk OptQAnd.none none
        (some (PfxType.TWrite, ⟨QueryComparison.Equal, F64.finite 500000⟩)))
        OptPfx.none) OptQOr.none)).check p =
          decide (|p.tw_f64 - 500000| < f64Epsilon)) := by
  have t1 : tokenizeQuery "read>1 GiB" = ["read", ">", "1", "GiB"] := by decide
  have t2 : tokenizeQuery "write=500 KB" = ["write", "=", "500", "KB"] := by decide
  have hr : ∀ rest, processPfxR ("read" :: rest) = processNumericR PfxType.TRead rest :=
    fun rest => processPfxR_num rest (by decide) (by decide) (by decide)
  have hw : ∀ rest, processPfxR ("write" :: rest) = processNumericR PfxType.TWrite rest :=
    fun rest => processPfxR_num rest (by decide) (by decide) (by decide)
  have hm1 : (1 : ℚ) * 1073741824 = 1073741824 := one_mul _
  have hm2 : (500 : ℚ) * 1000 = 500000 := by norm_num
  have hv1 : processNumericR PfxType.TRead [">", "1", "GiB"] =
      .ok (Pfx.mk OptQAnd.none none
        (some (PfxType.TRead, ⟨QueryComparison.Greater, F64.finite 1073741824⟩)), []) := by
    have : processNumericR PfxType.TRead [">", "1", "GiB"] =
        .ok (Pfx.mk OptQAnd.none none
          (some (PfxType.TRead, ⟨QueryComparison.Greater, F64.finite ((1 : ℚ) * 1073741824)⟩)), []) := rfl
    rw [this, hm1]
  have hv2 : processNumericR PfxType.TWrite ["=", "500", "KB"] =
      .ok (Pfx.mk OptQAnd.none none
        (some (PfxType.TWrite, ⟨QueryComparison.Equal, F64.finite 500000⟩)), []) := by
    have : processNumericR PfxType.TWrite ["=", "500", "KB"] =
        .ok (Pfx.mk OptQAnd.none none
          (some (PfxType.TWrite, ⟨QueryComparison.Equal, F64.finite ((500 : ℚ) * 1000)⟩)), []) := rfl
    rw [this, hm2]
  have hp1 : processStringToFilter (tokenizeQuery "read>1 GiB") =
      .ok (Query.mk (QAnd.mk (QOr.mk (Pfx.mk OptQAnd.none none
        (some (PfxType.TRead, ⟨QueryComparison.Greater, F64.finite 1073741824⟩)))
        OptPfx.none) OptQOr.none), []) := by
    rw [t1, processStringToFilter_def]
    simp only [processAndR_def, processOrR_def, hr, hv1, processOrLoopR_nil,
      processAndLoopR_nil]
  have hp2 : processStringToFilter (tokenizeQuery "write=500 KB") =
      .ok (Query.mk (QAnd.mk (QOr.mk (Pfx.mk OptQAnd.none none
        (some (PfxType.TWrite, ⟨QueryComparison.Equal, F64.finite 500000⟩)))
        OptPfx.none) OptQOr.none), []) := by
    rw [t2, processStringToFilter_def]
    simp only [processAndR_def, processOrR_def, hw, hv2, processOrLoopR_nil,
      processAndLoopR_nil]
  refine ⟨hp1, hp2, ?_, ?_, fun p => rfl, fun p => rfl⟩
  · intro ww ic
    unfold parse_query parseQueryTokens
    rw [hp1]
    rfl
  · intro ww ic
    unfold parse_query parseQueryTokens
    rw [hp2]
    rfl

/-- C10: `parse_query` never examines the tokens left over after the
top-level `And` is parsed: whenever the parser succeeds with a leftover
queue, the query is returned and the leftovers are silently discarded.
Concretely, `cpu>50 mem>50` compiles to exactly the same query as `cpu>50`,
with no error for the ignored trailing tokens. -/
theorem C10_trailing_tokens_ignored :
    (∀ (toks : Toks) (q : Query) (rest : Toks),
      processStringToFilter toks = .ok (q, rest) → parseQueryTokens toks = .ok q) ∧
    parse_query "cpu>50 mem>50" false false = parse_query "cpu>50" false false ∧
    parse_query "cpu>50" false false =
      .ok (Query.mk (QAnd.mk (QOr.mk (Pfx.mk OptQAnd.none none
        (some (PfxType.Cpu, ⟨QueryComparison.Greater, F64.finite 50⟩)))
        OptPfx.none) OptQOr.none)) := by
  have hcpu : ∀ rest, processPfxR ("cpu" :: rest) = processNumericR PfxType.Cpu rest :=
    fun rest => processPfxR_num rest (by decide) (by decide) (by decide)
  have h3 : parse_query "cpu>50" false false =
      .ok (Query.mk (QAnd.mk (QOr.mk (Pfx.mk OptQAnd.none none
        (some (PfxType.Cpu, ⟨QueryComparison.Greater, F64.finite 50⟩)))
        OptPfx.none) OptQOr.none)) := by
    have t2 : tokenizeQuery "cpu>50" = ["cpu", ">", "50"] := by decide
    have hv : processNumericR PfxType.Cpu [">", "50"] =
        .ok (Pfx.mk OptQAnd.none none
          (some (PfxType.Cpu, ⟨QueryComparison.Greater, F64.finite 50⟩)), []) := rfl
    unfold parse_query parseQueryTokens
    rw [t2, processStringToFilter_def]
    simp only [processAndR_def, processOrR_def, hcpu, hv, processOrLoopR_nil,
      processAndLoopR_nil]
    rfl
  refine ⟨?_, ?_, h3⟩
  · intro toks q rest h
    unfold parseQueryTokens
    rw [h]
    rfl
  · have t1 : tokenizeQuery "cpu>50 mem>50" = ["cpu", ">", "50", "mem", ">", "50"] := by
      decide
    have hv : processNumericR PfxType.Cpu [">", "50", "mem", ">", "50"] =
        .ok (Pfx.mk OptQAnd.none none
          (some (PfxType.Cpu, ⟨QueryComparison.Greater, F64.finite 50⟩)), ["mem", ">", "50"]) := rfl
    have k1 : isOrKw "mem" = false := by decide
    have k2 : isAndKw "mem" = false := by decide
    have h1 : parse_query "cpu>50 mem>50" false false =
        .ok (Query.mk (QAnd.mk (QOr.mk (Pfx.mk OptQAnd.none none
          (some (PfxType.Cpu, ⟨QueryComparison.Greater, F64.finite 50⟩)))
          OptPfx.none) OptQOr.none)) := by
      unfold parse_query parseQueryTokens
      rw [t1, processStringToFilter_def]
      simp only [processAndR_def, processOrR_def, hcpu, hv, processOrLoopR_stop,
        processAndLoopR_stop, k1, k2]
      rfl
    rw [h1, h3]

theorem C10_witness :
    (processStringToFilter ["x"] =
      .ok (Query.mk (QAnd.mk (QOr.mk (namePfx "x") OptPfx.none) OptQOr.none), [])) ∧
    parseQueryTokens ["x"] =
      .ok (Query.mk (QAnd.mk (QOr.mk (namePfx "x") OptPfx.none) OptQOr.none)) := by
  have hs : processStringToFilter ["x"] =
      .ok (Query.mk (QAnd.mk (QOr.mk (namePfx "x") OptPfx.none) OptQOr.none), []) := by
    have hx := processPfxR_name (t := "x") [] (by decide) (by decide) (by decide)
    rw [processStringToFilter_def]
    simp only [processAndR_def, processOrR_def, hx, processOrLoopR_nil,
      processAndLoopR_nil]
  exact ⟨hs, C10_trailing_tokens_ignored.1 ["x"] _ [] hs⟩
